import Mathlib

/-!
Verification of the TokenRouter Node SDK core: the SSE stream decoder
(`parseSSEStream` in `src/client.ts` and `streamChatCompletion` in the
legacy chat client), the transport request executor with its error mapping
and bounded 5xx retry (`handleResponseError` / `request`), and the response
normalizer (`extractOutputText`).

Modelling conventions (shallow embedding):
* JS strings that the decoder slices per character are modelled as `List Char`;
  the transport layer, which never splits strings, uses `String`.
* One network chunk, as returned by `reader.read()`, is a `List Char`
  (`TextDecoder` with `stream: true` makes byte-level splits equivalent to
  character-level splits of the decoded text).
* `JSON.parse` composed with the per-event normalization applied before
  `yield` is abstracted as `parse : List Char → Option E`; `none` models
  `JSON.parse` throwing (the `catch` that silently drops the payload).
* Fallible JS code is modelled with `Option`/`Except`; thrown errors become
  returned values of the error type.
-/

/-! ### SSE stream decoder (src/client.ts, `parseSSEStream`) -/

/-- The literal `'data: '` the decoder tests with `line.startsWith('data: ')`. -/
def dataMark : List Char := "data: ".toList

/-- The literal `'event: '` the decoder tests with `line.startsWith('event: ')`. -/
def eventMark : List Char := "event: ".toList

/-- The literal termination sentinel `'[DONE]'`. -/
def sentinelChars : List Char := "[DONE]".toList

/-- A complete `data: [DONE]` line. -/
def doneLine : List Char := dataMark ++ sentinelChars

/-- `buffer.split('\n')` followed by `buffer = lines.pop() || ''`:
returns the complete (newline-terminated) lines and the trailing,
possibly-incomplete fragment retained for the next read. -/
def splitLines : List Char → List (List Char) × List Char
  | [] => ([], [])
  | c :: cs =>
    let r := splitLines cs
    if c = '\n' then ([] :: r.1, r.2)
    else
      match r.1 with
      | [] => ([], c :: r.2)
      | l :: ls => ((c :: l) :: ls, r.2)

/-- Outcome of the body of the `for (const line of lines)` loop on one line. -/
inductive LineStep (E : Type) where
  | skip
  | emit (e : E)
  | sentinel
deriving DecidableEq, Repr

/-- One iteration of the line loop in `parseSSEStream`:
empty (all-whitespace) lines and `event: ` lines are skipped; `data: ` lines
are stripped of the 6-character marker (`line.slice(6)`); the payload
`'[DONE]'` terminates the generator; otherwise the payload is parsed and
yielded, parse failures being silently dropped. -/
def processLine {E : Type} (parse : List Char → Option E) (line : List Char) :
    LineStep E :=
  if line.all Char.isWhitespace then .skip
  else if eventMark.isPrefixOf line then .skip
  else if dataMark.isPrefixOf line then
    let data := line.drop 6
    if data = sentinelChars then .sentinel
    else
      match parse data with
      | some e => .emit e
      | none => .skip
  else .skip

/-- One iteration of the line loop in `streamChatCompletion`
(src/unnamed/part_004): only the `data: ` test is performed. -/
def processLineChat {E : Type} (parse : List Char → Option E) (line : List Char) :
    LineStep E :=
  if dataMark.isPrefixOf line then
    let data := line.drop 6
    if data = sentinelChars then .sentinel
    else
      match parse data with
      | some e => .emit e
      | none => .skip
  else .skip

/-- Run the line loop over the complete lines of one buffered chunk,
collecting the events yielded and whether the `[DONE]` `return` fired
(which abandons the remaining lines and the whole read loop). -/
def runLines {E : Type} (step : List Char → LineStep E) :
    List (List Char) → List E × Bool
  | [] => ([], false)
  | l :: ls =>
    match step l with
    | .sentinel => ([], true)
    | .emit e =>
      let r := runLines step ls
      (e :: r.1, r.2)
    | .skip => runLines step ls

/-- The read loop of `parseSSEStream`, from a given buffer: each chunk is
appended to the buffer, the buffer is split on newline keeping the last
fragment, and the complete lines are processed; end of stream (`done`)
breaks out, discarding the residual buffer. -/
def decodeFrom {E : Type} (parse : List Char → Option E) :
    List (List Char) → List Char → List E
  | [], _ => []
  | chunk :: rest, buffer =>
    let p := splitLines (buffer ++ chunk)
    let q := runLines (processLine parse) p.1
    if q.2 then q.1 else q.1 ++ decodeFrom parse rest p.2

/-- The full decode of `parseSSEStream`: the sequence of events yielded when
the underlying stream delivers `chunks` and then end-of-stream. -/
def parseSSEStream {E : Type} (parse : List Char → Option E)
    (chunks : List (List Char)) : List E :=
  decodeFrom parse chunks []

/-! ### Execution traces for the resource-discipline claim

Effects observable at the reader boundary: a `reader.read()` call, a
`yield` to the consumer, and a `reader.releaseLock()` call. -/

inductive Effect (E : Type) where
  | read
  | yieldEv (e : E)
  | release
deriving DecidableEq, Repr

/-- Effect trace of the `while (true)` read loop of `parseSSEStream`.
`failAt = some i` means the i-th `reader.read()` (0-based) throws; the loop
is then abandoned at that point (the `finally` is accounted for by the
caller). The trace records only the loop itself. -/
def sseLoopTrace {E : Type} (parse : List Char → Option E) (failAt : Option Nat) :
    List (List Char) → Nat → List Char → List (Effect E)
  | [], _, _ => [Effect.read]
  | chunk :: rest, i, buffer =>
    if failAt = some i then [Effect.read]
    else
      let p := splitLines (buffer ++ chunk)
      let q := runLines (processLine parse) p.1
      Effect.read ::
        (q.1.map Effect.yieldEv ++
          if q.2 then [] else sseLoopTrace parse failAt rest (i + 1) p.2)

/-- Trace of `parseSSEStream` when the consumer iterates to the end: the
loop runs inside `try`, and the `finally` releases the reader on every exit
(break on `done`, `return` on the sentinel, or a throwing read). -/
def parseSSETraceFull {E : Type} (parse : List Char → Option E)
    (chunks : List (List Char)) (failAt : Option Nat) : List (Effect E) :=
  sseLoopTrace parse failAt chunks 0 [] ++ [Effect.release]

/-- Cut a trace right after its k-th yield (k ≥ 1); `none` when fewer than
k yields occur. This models the consumer breaking out of iteration after
receiving k events, which resumes the generator with an early return. -/
def cutAtYield {E : Type} : Nat → List (Effect E) → Option (List (Effect E))
  | _, [] => none
  | k, Effect.yieldEv x :: rest =>
    if k ≤ 1 then some [Effect.yieldEv x]
    else (cutAtYield (k - 1) rest).map (fun t => Effect.yieldEv x :: t)
  | k, e :: rest => (cutAtYield k rest).map (fun t => e :: t)

/-- Trace of `parseSSEStream` under a consumer that stops after `k` events
(`budget = some k`) or consumes everything (`budget = none`). An early
return from the consumer runs the generator's `finally`, releasing the
reader. -/
def parseSSETrace {E : Type} (parse : List Char → Option E)
    (chunks : List (List Char)) (failAt : Option Nat) (budget : Option Nat) :
    List (Effect E) :=
  let full := parseSSETraceFull parse chunks failAt
  match budget with
  | none => full
  | some k =>
    match cutAtYield k full with
    | some p => p ++ [Effect.release]
    | none => full

/-- Effect trace of the read loop of `streamChatCompletion`
(src/unnamed/part_004, lines 318–341): same loop shape, chat line filter,
and crucially no `try`/`finally` around it. -/
def chatLoopTrace {E : Type} (parse : List Char → Option E) (failAt : Option Nat) :
    List (List Char) → Nat → List Char → List (Effect E)
  | [], _, _ => [Effect.read]
  | chunk :: rest, i, buffer =>
    if failAt = some i then [Effect.read]
    else
      let p := splitLines (buffer ++ chunk)
      let q := runLines (processLineChat parse) p.1
      Effect.read ::
        (q.1.map Effect.yieldEv ++
          if q.2 then [] else chatLoopTrace parse failAt rest (i + 1) p.2)

/-- Trace of `streamChatCompletion`: the generator body never invokes
`reader.releaseLock()`, so neither normal completion, the sentinel return,
a throwing read, nor an early consumer break runs any release. -/
def chatTrace {E : Type} (parse : List Char → Option E)
    (chunks : List (List Char)) (failAt : Option Nat) (budget : Option Nat) :
    List (Effect E) :=
  let full := chatLoopTrace parse failAt chunks 0 []
  match budget with
  | none => full
  | some k =>
    match cutAtYield k full with
    | some p => p
    | none => full

/-- Is this effect a `releaseLock` invocation? -/
def isRelease {E : Type} : Effect E → Bool
  | Effect.release => true
  | _ => false

/-- Number of `releaseLock` invocations recorded in a trace. -/
def releaseCount {E : Type} (tr : List (Effect E)) : Nat :=
  tr.countP isRelease

/-! ### Transport layer: error taxonomy and request executor (src/client.ts) -/

/-- The parts of a non-2xx response body that `handleResponseError` consults
(`data?.detail`, `data?.error`); `rest` stands for the remainder of the JSON
body, carried verbatim into the error's `response` field. -/
structure Body where
  detail : Option String
  error : Option String
  rest : String
deriving DecidableEq, Repr

/-- An HTTP response as seen by the axios error interceptor. `data` is
`none` when the body was absent/unparsed; headers are an association list
of lowercased names (axios normalization) to string values. -/
structure HttpResponse where
  status : Nat
  data : Option Body
  statusText : String
  headers : List (String × String)
deriving DecidableEq, Repr

/-- The error taxonomy of src/errors.ts. Each class carries
`(message, statusCode?, response?, headers?)`; `RateLimitError` additionally
carries `retryAfter`. The outer `Option` on `retryAfter` is JS `undefined`
(header absent or falsy), the inner one distinguishes a parsed integer from
`NaN`. -/
inductive TRError where
  | tokenRouterError (message : String) (statusCode : Option Nat)
      (response : Option Body) (headers : Option (List (String × String)))
  | authenticationError (message : String) (statusCode : Option Nat)
      (response : Option Body) (headers : Option (List (String × String)))
  | rateLimitError (message : String) (statusCode : Option Nat)
      (response : Option Body) (headers : Option (List (String × String)))
      (retryAfter : Option (Option Int))
  | invalidRequestError (message : String) (statusCode : Option Nat)
      (response : Option Body) (headers : Option (List (String × String)))
  | apiConnectionError (message : String) (statusCode : Option Nat)
      (response : Option Body) (headers : Option (List (String × String)))
  | apiStatusError (message : String) (statusCode : Option Nat)
      (response : Option Body) (headers : Option (List (String × String)))
  | timeoutError (message : String) (statusCode : Option Nat)
      (response : Option Body) (headers : Option (List (String × String)))
  | quotaExceededError (message : String) (statusCode : Option Nat)
      (response : Option Body) (headers : Option (List (String × String)))
deriving DecidableEq, Repr

/-- `error instanceof APIStatusError` (no other taxonomy member extends it). -/
def isAPIStatusError : TRError → Bool
  | .apiStatusError _ _ _ _ => true
  | _ => false

/-- JS `a || b` for an optional string `a` (empty string is falsy). -/
def jsStrOr (a : Option String) (b : String) : String :=
  match a with
  | none => b
  | some s => if s = "" then b else s

/-- `data?.detail || data?.error || response.statusText`. -/
def extractMessage (r : HttpResponse) : String :=
  jsStrOr (r.data.bind Body.detail)
    (jsStrOr (r.data.bind Body.error) r.statusText)

/-- `convertHeaders`: in this model every header value is already a string,
so the conversion loop is the identity; the `undefined` branch of the source
is only reached on a falsy `headers` value, which axios never supplies. -/
def convertHeaders (headers : List (String × String)) :
    Option (List (String × String)) :=
  some headers

/-- `message.toLowerCase().includes('quota')`: substring search. -/
def hasSub : List Char → List Char → Bool
  | [], needle => needle.isPrefixOf []
  | c :: t, needle => needle.isPrefixOf (c :: t) || hasSub t needle

/-- The case-insensitive "quota" test on the extracted message
(`toLowerCase` applied character-wise). -/
def msgHasQuota (m : String) : Bool :=
  hasSub (m.toList.map Char.toLower) "quota".toList

/-- Value of a decimal digit character. -/
def decVal (c : Char) : Nat := c.toNat - 48

/-- JS hex digit test (after an `0x`/`0X` marker). -/
def isHexDig (c : Char) : Bool :=
  ('0' ≤ c && c ≤ '9') || ('a' ≤ c && c ≤ 'f') || ('A' ≤ c && c ≤ 'F')

/-- Value of a hex digit character. -/
def hexVal (c : Char) : Nat :=
  if '0' ≤ c && c ≤ '9' then c.toNat - 48
  else if 'a' ≤ c && c ≤ 'f' then c.toNat - 87
  else c.toNat - 55

/-- JS `parseInt(s)`: skip leading whitespace, optional sign, then the
longest prefix of digits (hex after a `0x`/`0X` marker, else decimal);
`none` is `NaN` (no digits). -/
def jsParseInt (s : String) : Option Int :=
  let cs := s.toList.dropWhile Char.isWhitespace
  let signAndRest : Int × List Char :=
    match cs with
    | '-' :: t => (-1, t)
    | '+' :: t => (1, t)
    | _ => (1, cs)
  let sgn := signAndRest.1
  let body := signAndRest.2
  match body with
  | '0' :: 'x' :: t =>
    let ds := t.takeWhile isHexDig
    if ds = [] then none
    else some (sgn * (ds.foldl (fun a c => a * 16 + hexVal c) 0 : Nat))
  | '0' :: 'X' :: t =>
    let ds := t.takeWhile isHexDig
    if ds = [] then none
    else some (sgn * (ds.foldl (fun a c => a * 16 + hexVal c) 0 : Nat))
  | _ =>
    let ds := body.takeWhile Char.isDigit
    if ds = [] then none
    else some (sgn * (ds.foldl (fun a c => a * 10 + decVal c) 0 : Nat))

/-- `retryAfter ? parseInt(retryAfter) : undefined` for the looked-up
`retry-after` header (absent or empty-string header is falsy). -/
def parseRetryAfter (h : Option String) : Option (Option Int) :=
  match h with
  | none => none
  | some s => if s = "" then none else some (jsParseInt s)

/-- `handleResponseError` (src/client.ts lines 96–127): maps a non-2xx
response to the thrown taxonomy member. The `switch` is rendered as the
equivalent chain over the distinct cases, in source order. -/
def handleResponseError (r : HttpResponse) : TRError :=
  let message := extractMessage r
  let headers := convertHeaders r.headers
  if r.status = 401 then .authenticationError message (some r.status) r.data headers
  else if r.status = 429 then
    let retryAfter := List.lookup "retry-after" r.headers
    .rateLimitError message (some r.status) r.data headers
      (parseRetryAfter retryAfter)
  else if r.status = 400 then .invalidRequestError message (some r.status) r.data headers
  else if r.status = 403 then
    if msgHasQuota message then .quotaExceededError message (some r.status) r.data headers
    else .authenticationError message (some r.status) r.data headers
  else if 500 ≤ r.status then .apiStatusError message (some r.status) r.data headers
  else .tokenRouterError message (some r.status) r.data headers

/-- What one network attempt produces, as dispatched by the axios response
interceptor (`setupInterceptors`): a 2xx value, a non-2xx response
(`error.response`), a connection-level failure with no response
(`error.request`), or a request-construction failure. -/
inductive AttemptResult (α : Type) where
  | success (value : α)
  | httpError (response : HttpResponse)
  | connectionFailure (message : String)
  | setupFailure (message : String)

/-- The interceptor's classification of one attempt against `server`
(attempt index ↦ outcome): 2xx resolves, `error.response` goes through
`handleResponseError`, a missing response maps to `APIConnectionError`,
anything else to the base `TokenRouterError`. -/
def attemptOutcome {α : Type} (server : Nat → AttemptResult α) (i : Nat) :
    Except TRError α :=
  match server i with
  | .success v => .ok v
  | .httpError r => .error (handleResponseError r)
  | .connectionFailure m =>
    .error (.apiConnectionError ("Connection failed: " ++ m) none none none)
  | .setupFailure m =>
    .error (.tokenRouterError ("Request failed: " ++ m) none none none)

/-- The retry guard of `request`:
`error instanceof APIStatusError && error.statusCode && error.statusCode >= 500`
(a missing or zero — falsy — status code never retries). -/
def shouldRetry : TRError → Bool
  | .apiStatusError _ (some s) _ _ => s != 0 && 500 ≤ s
  | _ => false

/-- Observable outcome of `request`: the returned value or propagated
error, the number of network calls made, and the backoff delays
(`Math.pow(2, retryCount) * 1000` milliseconds) awaited before retries. -/
structure RunResult (α : Type) where
  result : Except TRError α
  calls : Nat
  delaysMs : List Nat

/-- `request` (src/client.ts lines 129–158) from a given `retryCount`:
retries exactly when `retryCount < maxRetries` and the caught error passes
`shouldRetry`, after the exponential delay; otherwise the error is
rethrown. Instrumented with the call count and delay trace. -/
def requestRun {α : Type} (server : Nat → AttemptResult α) (maxRetries : Nat)
    (retryCount : Nat) : RunResult α :=
  match attemptOutcome server retryCount with
  | .ok v => ⟨.ok v, 1, []⟩
  | .error e =>
    if h : retryCount < maxRetries ∧ shouldRetry e = true then
      let r := requestRun server maxRetries (retryCount + 1)
      ⟨r.result, r.calls + 1, 2 ^ retryCount * 1000 :: r.delaysMs⟩
    else ⟨.error e, 1, []⟩
termination_by maxRetries - retryCount
decreasing_by omega

/-! ### Response normalizer (src/client.ts, `extractOutputText`) -/

/-- One content block of an output item (src/types.ts `OutputContent`);
only the fields `extractOutputText` reads are modelled. -/
structure OutputContent where
  type : String
  text : Option String
deriving DecidableEq, Repr

/-- One output item (src/types.ts `OutputItem`); only the fields
`extractOutputText` reads are modelled. -/
structure OutputItem where
  type : String
  content : Option (List OutputContent)
deriving DecidableEq, Repr

/-- A response, restricted to the `output` field that `extractOutputText`
traverses (`none` models an absent `output`, read as `response.output || []`). -/
structure ResponseOut where
  output : Option (List OutputItem)
deriving DecidableEq, Repr

/-- `texts.join('')`. -/
def joinAll : List String → String
  | [] => ""
  | s :: rest => s ++ joinAll rest

/-- The inner loop of `extractOutputText`: texts pushed for one content
list (`content.type === 'output_text' && content.text`; a falsy — absent or
empty — `text` is skipped). -/
def contentTexts : List OutputContent → List String
  | [] => []
  | c :: cs =>
    if c.type = "output_text" then
      match c.text with
      | some t => if t = "" then contentTexts cs else t :: contentTexts cs
      | none => contentTexts cs
    else contentTexts cs

/-- The outer loop of `extractOutputText`: texts pushed for the whole
output list (`item.type === 'message' && item.content`). -/
def itemTexts : List OutputItem → List String
  | [] => []
  | i :: is =>
    (if i.type = "message" then
      match i.content with
      | some cs => contentTexts cs
      | none => []
    else []) ++ itemTexts is

/-- `extractOutputText` (src/client.ts lines 163–175). -/
def extractOutputText (r : ResponseOut) : String :=
  joinAll (itemTexts (r.output.getD []))

/-- The §4.4 contract stated in the spec's own words: concatenate, in
output-then-content traversal order with no separators, the text of every
`output_text` block of every `message` item; everything else contributes
nothing. -/
def deriveOutputTextSpec (r : ResponseOut) : String :=
  joinAll ((r.output.getD []).flatMap fun i =>
    if i.type = "message" then
      (i.content.getD []).flatMap fun c =>
        if c.type = "output_text" then [c.text.getD ""] else []
    else [])

/-- How the split of a concatenation is assembled from the splits of the
two parts: the first fragment of the second part merges with the trailing
fragment of the first. -/
def combineSplit (a b : List (List Char) × List Char) :
    List (List Char) × List Char :=
  match b.1 with
  | [] => (a.1, a.2 ++ b.2)
  | h :: t => (a.1 ++ (a.2 ++ h) :: t, b.2)

/-! ## Lemmas about the decoder's line buffering -/

theorem splitLines_append (x y : List Char) :
    splitLines (x ++ y) = combineSplit (splitLines x) (splitLines y) := by
  induction x with
  | nil =>
    simp only [List.nil_append]
    rcases hy : splitLines y with ⟨yl, yr⟩
    cases yl <;> simp [combineSplit, splitLines, hy]
  | cons c cs ih =>
    rcases hcs : splitLines cs with ⟨cl, cr⟩
    rcases hy : splitLines y with ⟨yl, yr⟩
    rw [hcs, hy] at ih
    by_cases hc : c = '\n'
    · subst hc
      cases yl <;> cases cl <;>
        simp_all [splitLines, combineSplit]
    · cases yl <;> cases cl <;>
        simp_all [splitLines, combineSplit]

theorem splitLines_no_newline (l : List Char) (h : '\n' ∉ l) :
    splitLines l = ([], l) := by
  induction l with
  | nil => rfl
  | cons c cs ih =>
    simp only [List.mem_cons, not_or] at h
    simp [splitLines, ih h.2, Ne.symm h.1, h.1]

theorem newline_not_mem_rest (l : List Char) : '\n' ∉ (splitLines l).2 := by
  induction l with
  | nil => simp [splitLines]
  | cons c cs ih =>
    by_cases hc : c = '\n'
    · subst hc; simpa [splitLines] using ih
    · rcases hcs : splitLines cs with ⟨cl, cr⟩
      rw [hcs] at ih
      cases cl <;> simp_all [splitLines] <;> exact fun hh => hc hh.symm

theorem runLines_append {E : Type} (step : List Char → LineStep E)
    (xs ys : List (List Char)) :
    runLines step (xs ++ ys) =
      if (runLines step xs).2 then runLines step xs
      else ((runLines step xs).1 ++ (runLines step ys).1, (runLines step ys).2) := by
  induction xs with
  | nil => simp [runLines]
  | cons l ls ih =>
    cases hstep : step l <;> simp [runLines, hstep, ih] <;>
      rcases hr : runLines step ls with ⟨es, d⟩ <;> cases d <;> simp_all

theorem decodeFrom_merge {E : Type} (parse : List Char → Option E)
    (a b : List Char) (rest : List (List Char)) (buffer : List Char) :
    decodeFrom parse ((a ++ b) :: rest) buffer =
      decodeFrom parse (a :: b :: rest) buffer := by
  have hassoc : buffer ++ (a ++ b) = (buffer ++ a) ++ b := by
    simp [List.append_assoc]
  rcases h1 : splitLines (buffer ++ a) with ⟨l1, r1⟩
  have hr1 : splitLines (r1 ++ b) = combineSplit ([], r1) (splitLines b) := by
    rw [splitLines_append, splitLines_no_newline r1]
    have := newline_not_mem_rest (buffer ++ a)
    rw [h1] at this
    exact this
  rcases hb : splitLines b with ⟨bl, br⟩
  cases bl with
  | nil =>
    simp only [decodeFrom, hassoc, splitLines_append, h1, hb, hr1, combineSplit,
      runLines, List.nil_append]
    rcases hq : runLines (processLine parse) l1 with ⟨es, d⟩
    cases d <;> simp
  | cons h t =>
    simp only [decodeFrom, hassoc, splitLines_append, h1, hb, hr1, combineSplit,
      List.nil_append]
    rw [runLines_append]
    rcases hq : runLines (processLine parse) l1 with ⟨es, d⟩
    cases d <;> simp only [if_true, if_false, Bool.false_eq_true, ite_false, ite_true]
    · rcases hq2 : runLines (processLine parse) ((r1 ++ h) :: t) with ⟨es2, d2⟩
      cases d2 <;> simp

theorem decodeFrom_flatten {E : Type} (parse : List Char → Option E)
    (rest : List (List Char)) :
    ∀ (c buffer : List Char),
      decodeFrom parse (c :: rest) buffer =
        decodeFrom parse [(c :: rest).flatten] buffer := by
  induction rest with
  | nil => intro c buffer; simp
  | cons c2 rest2 ih =>
    intro c buffer
    rw [← decodeFrom_merge, ih (c ++ c2) buffer]
    simp [List.append_assoc]

theorem parseSSE_flatten {E : Type} (parse : List Char → Option E)
    (chunks : List (List Char)) :
    parseSSEStream parse chunks = parseSSEStream parse [chunks.flatten] := by
  cases chunks with
  | nil => rfl
  | cons c rest => exact decodeFrom_flatten parse rest c []

theorem parseSSE_rechunk {E : Type} (parse : List Char → Option E)
    (chunks₁ chunks₂ : List (List Char)) (h : chunks₁.flatten = chunks₂.flatten) :
    parseSSEStream parse chunks₁ = parseSSEStream parse chunks₂ := by
  rw [parseSSE_flatten parse chunks₁, parseSSE_flatten parse chunks₂, h]

/-- Claim C1: frame-boundary invariance of the SSE decoder — decoding a
fixed payload delivered as any sequence of network chunks (any split of
the payload, at every possible offset, including multi-way splits) yields
exactly the event sequence of the unsplit payload, because each read
appends to the internal buffer, splits on newline, and retains the last
possibly-incomplete fragment. -/
theorem sse_frame_boundary_invariance {E : Type} (parse : List Char → Option E)
    (chunks : List (List Char)) (payload : List Char)
    (h : chunks.flatten = payload) :
    parseSSEStream parse chunks = parseSSEStream parse [payload] := by
  rw [parseSSE_flatten parse chunks, h]

theorem sse_frame_boundary_invariance_witness :
    ["data: ok".toList, "1\nda".toList, "ta: ok2\n".toList].flatten
        = "data: ok1\ndata: ok2\n".toList
      ∧ parseSSEStream (fun l => some l)
          ["data: ok".toList, "1\nda".toList, "ta: ok2\n".toList]
        = parseSSEStream (fun l => some l) ["data: ok1\ndata: ok2\n".toList] :=
  ⟨by decide,
    sse_frame_boundary_invariance (fun l => some l) _ _ (by decide)⟩

/-! ## Computation lemmas for single lines -/

theorem isPrefixOf_append_self (p l : List Char) :
    p.isPrefixOf (p ++ l) = true := by
  induction p with
  | nil => simp [List.isPrefixOf]
  | cons c cs ih => simp [List.isPrefixOf, ih]

theorem processLine_data {E : Type} (parse : List Char → Option E)
    (v : List Char) :
    processLine parse (dataMark ++ v) =
      (if v = sentinelChars then .sentinel
       else
        match parse v with
        | some e => .emit e
        | none => .skip) := by
  have hws : (dataMark ++ v).all Char.isWhitespace = false := by
    rw [List.all_append]
    have : dataMark.all Char.isWhitespace = false := by decide
    simp [this]
  have hev : eventMark.isPrefixOf (dataMark ++ v) = false := by
    have h1 : eventMark = 'e' :: "vent: ".toList := rfl
    have h2 : dataMark ++ v = 'd' :: ("ata: ".toList ++ v) := rfl
    rw [h1, h2]
    simp [List.isPrefixOf]
  have hdm : dataMark.isPrefixOf (dataMark ++ v) = true :=
    isPrefixOf_append_self dataMark v
  have hdrop : (dataMark ++ v).drop 6 = v := rfl
  simp only [processLine, hws, hev, hdm, hdrop, Bool.false_eq_true,
    if_false, if_true, ite_false, ite_true]

theorem processLine_doneLine {E : Type} (parse : List Char → Option E) :
    processLine parse doneLine = .sentinel := by
  rw [show doneLine = dataMark ++ sentinelChars from rfl, processLine_data]
  simp

theorem splitLines_line (l rest : List Char) (h : '\n' ∉ l) :
    splitLines (l ++ '\n' :: rest) =
      (l :: (splitLines rest).1, (splitLines rest).2) := by
  have h2 : splitLines ('\n' :: rest) = ([] :: (splitLines rest).1, (splitLines rest).2) := by
    simp [splitLines]
  have := splitLines_append l ('\n' :: rest)
  rw [splitLines_no_newline l h, h2] at this
  simpa [combineSplit] using this

theorem decodeFrom_cons {E : Type} (parse : List Char → Option E)
    (chunk : List Char) (rest : List (List Char)) (buffer : List Char) :
    decodeFrom parse (chunk :: rest) buffer =
      (let p := splitLines (buffer ++ chunk)
       let q := runLines (processLine parse) p.1
       if q.2 then q.1 else q.1 ++ decodeFrom parse rest p.2) := rfl

theorem decodeFrom_single {E : Type} (parse : List Char → Option E)
    (chunk buffer : List Char) :
    decodeFrom parse [chunk] buffer =
      (runLines (processLine parse) (splitLines (buffer ++ chunk)).1).1 := by
  rw [decodeFrom_cons]
  rcases hq : runLines (processLine parse) (splitLines (buffer ++ chunk)).1 with ⟨es, d⟩
  cases d <;> simp [hq, decodeFrom]

theorem decodeFrom_doneCons {E : Type} (parse : List Char → Option E)
    (rest : List (List Char)) :
    decodeFrom parse ((doneLine ++ ['\n']) :: rest) [] = [] := by
  rw [decodeFrom_cons]
  have hsp : splitLines ([] ++ (doneLine ++ ['\n'])) = ([doneLine], []) := by decide
  rw [hsp]
  simp [runLines, processLine_doneLine]

/-- Claim C2: termination sentinel — once a complete `data: [DONE]` line is
reached, the decoded sequence is exactly the decode of the bytes before it;
nothing after the sentinel in the same buffered chunk (`post`) is ever
delivered and the remaining chunks (`rest`) are never read. `pre` is
newline-terminated (or empty) so that the sentinel genuinely occupies its
own line. -/
theorem sse_sentinel_terminates {E : Type} (parse : List Char → Option E)
    (pre post : List Char) (rest : List (List Char))
    (hpre : pre = [] ∨ ∃ q, pre = q ++ ['\n']) :
    parseSSEStream parse ((pre ++ (doneLine ++ ['\n']) ++ post) :: rest) =
      parseSSEStream parse [pre] := by
  obtain ⟨L, hL⟩ : ∃ L, splitLines pre = (L, []) := by
    rcases hpre with h | ⟨q, hq⟩
    · exact ⟨[], by simp [h, splitLines]⟩
    · refine ⟨(splitLines q).1 ++ [(splitLines q).2], ?_⟩
      rw [hq, splitLines_append]
      rcases hsq : splitLines q with ⟨ql, qr⟩
      simp [combineSplit, splitLines]
  have hre : parseSSEStream parse ((pre ++ (doneLine ++ ['\n']) ++ post) :: rest)
      = parseSSEStream parse (pre :: (doneLine ++ ['\n']) :: [post ++ rest.flatten]) := by
    apply parseSSE_rechunk
    simp [List.append_assoc]
  rw [hre]
  show decodeFrom parse _ [] = parseSSEStream parse [pre]
  rw [decodeFrom_cons]
  unfold parseSSEStream
  rw [decodeFrom_single, List.nil_append, hL]
  simp only [decodeFrom_doneCons, List.append_nil]
  rcases hq1 : runLines (processLine parse) L with ⟨es, d⟩
  cases d <;> simp

theorem sse_sentinel_terminates_witness :
    ("data: one\n".toList = [] ∨ ∃ q, "data: one\n".toList = q ++ ['\n'])
      ∧ parseSSEStream (fun l => some l)
          (("data: one\n".toList ++ (doneLine ++ ['\n']) ++ "data: two\n".toList)
            :: ["data: three\n".toList])
        = parseSSEStream (fun l => some l) ["data: one\n".toList] :=
  ⟨Or.inr ⟨"data: one".toList, by decide⟩,
    sse_sentinel_terminates (fun l => some l) _ _ _
      (Or.inr ⟨"data: one".toList, by decide⟩)⟩

/-- Claim C10: a trailing unterminated frame is silently discarded — if the
stream ends while the buffer still holds a newline-free residual fragment,
the decode equals the decode of the stream without that fragment: the
sequence ends normally and no event is ever parsed or yielded from the
residual text. -/
theorem sse_trailing_fragment_discarded {E : Type} (parse : List Char → Option E)
    (chunks : List (List Char)) (frag : List Char) (hf : '\n' ∉ frag) :
    parseSSEStream parse (chunks ++ [frag]) = parseSSEStream parse chunks := by
  rw [parseSSE_flatten parse (chunks ++ [frag]), parseSSE_flatten parse chunks]
  have h1 : (chunks ++ [frag]).flatten = chunks.flatten ++ frag := by simp
  rw [h1]
  unfold parseSSEStream
  rw [decodeFrom_single, decodeFrom_single, List.nil_append, List.nil_append,
    splitLines_append, splitLines_no_newline frag hf]
  rcases h : splitLines chunks.flatten with ⟨L, R⟩
  simp [combineSplit]

theorem sse_trailing_fragment_discarded_witness :
    '\n' ∉ "data: b".toList
      ∧ parseSSEStream (fun l => some l) (["data: a\n".toList] ++ ["data: b".toList])
        = parseSSEStream (fun l => some l) ["data: a\n".toList] :=
  ⟨by decide,
    sse_trailing_fragment_discarded (fun l => some l) ["data: a\n".toList]
      "data: b".toList (by decide)⟩

/-- Claim C7: malformed-event tolerance — a `data: ` line whose payload
fails to parse, between two parsable lines, is silently dropped: the decode
yields exactly the two valid events in arrival order and no error. -/
theorem sse_malformed_dropped {E : Type} (parse : List Char → Option E)
    (v₁ m v₂ : List Char) (e₁ e₂ : E)
    (hp₁ : parse v₁ = some e₁) (hpm : parse m = none) (hp₂ : parse v₂ = some e₂)
    (hn₁ : '\n' ∉ v₁) (hnm : '\n' ∉ m) (hn₂ : '\n' ∉ v₂)
    (hs₁ : v₁ ≠ sentinelChars) (hsm : m ≠ sentinelChars) (hs₂ : v₂ ≠ sentinelChars) :
    parseSSEStream parse
      [(dataMark ++ v₁) ++ '\n' ::
        ((dataMark ++ m) ++ '\n' :: ((dataMark ++ v₂) ++ '\n' :: []))] = [e₁, e₂] := by
  have hdm : ∀ v : List Char, '\n' ∉ v → '\n' ∉ dataMark ++ v := by
    intro v hv h
    rcases List.mem_append.mp h with h | h
    · exact absurd h (by decide)
    · exact hv h
  unfold parseSSEStream
  rw [decodeFrom_single, List.nil_append,
    splitLines_line _ _ (hdm v₁ hn₁), splitLines_line _ _ (hdm m hnm),
    splitLines_line _ _ (hdm v₂ hn₂)]
  simp [splitLines, runLines, processLine_data, hp₁, hpm, hp₂, hs₁, hsm, hs₂]

theorem sse_malformed_dropped_witness :
    parseSSEStream
      (fun l => if l = "ok1".toList then some 1 else
        if l = "ok2".toList then some 2 else none)
      [(dataMark ++ "ok1".toList) ++ '\n' ::
        ((dataMark ++ "bad".toList) ++ '\n' ::
          ((dataMark ++ "ok2".toList) ++ '\n' :: []))] = [1, 2] :=
  sse_malformed_dropped _ _ _ _ 1 2 (by decide) (by decide) (by decide)
    (by decide) (by decide) (by decide) (by decide) (by decide) (by decide)

/-! ## Lemmas about the request executor -/

theorem requestRun_ok {α : Type} (server : Nat → AttemptResult α) (m rc : Nat)
    (v : α) (h : attemptOutcome server rc = .ok v) :
    requestRun server m rc = ⟨.ok v, 1, []⟩ := by
  unfold requestRun
  rw [h]

theorem requestRun_noRetry {α : Type} (server : Nat → AttemptResult α) (m rc : Nat)
    (e : TRError) (h : attemptOutcome server rc = .error e)
    (hc : ¬(rc < m ∧ shouldRetry e = true)) :
    requestRun server m rc = ⟨.error e, 1, []⟩ := by
  unfold requestRun
  rw [h]
  simp only [dif_neg hc]

theorem requestRun_retry {α : Type} (server : Nat → AttemptResult α) (m rc : Nat)
    (e : TRError) (h : attemptOutcome server rc = .error e)
    (hc : rc < m ∧ shouldRetry e = true) :
    requestRun server m rc =
      ⟨(requestRun server m (rc + 1)).result, (requestRun server m (rc + 1)).calls + 1,
        2 ^ rc * 1000 :: (requestRun server m (rc + 1)).delaysMs⟩ := by
  conv_lhs => rw [requestRun]
  rw [h]
  simp only [dif_pos hc]

theorem delays_cons (rc n : Nat) :
    (2 ^ rc * 1000) :: ((List.range n).map fun j => 2 ^ (rc + 1 + j) * 1000)
      = (List.range (n + 1)).map fun j => 2 ^ (rc + j) * 1000 := by
  rw [List.range_succ_eq_map, List.map_cons, List.map_map]
  refine congrArg₂ _ (by simp) ?_
  apply List.map_congr_left
  intro j _
  simp [Function.comp]
  ring_nf

theorem requestRun_ok_after {α : Type} (server : Nat → AttemptResult α) (m : Nat)
    (v : α) :
    ∀ (k rc : Nat), rc + k ≤ m →
      (∀ i, i < k → ∃ e, attemptOutcome server (rc + i) = .error e ∧ shouldRetry e = true) →
      attemptOutcome server (rc + k) = .ok v →
      requestRun server m rc =
        ⟨.ok v, k + 1, (List.range k).map fun j => 2 ^ (rc + j) * 1000⟩ := by
  intro k
  induction k with
  | zero =>
    intro rc _ _ hok
    rw [Nat.add_zero] at hok
    simpa using requestRun_ok server m rc v hok
  | succ n ih =>
    intro rc hle hfail hok
    obtain ⟨e, he, hre⟩ := hfail 0 (Nat.succ_pos n)
    rw [Nat.add_zero] at he
    have hrc : rc < m := by omega
    rw [requestRun_retry server m rc e he ⟨hrc, hre⟩]
    have hrec := ih (rc + 1) (by omega)
      (fun i hi => by
        have h2 := hfail (i + 1) (by omega)
        have heq : rc + (i + 1) = rc + 1 + i := by omega
        rwa [heq] at h2)
      (by
        have heq : rc + 1 + n = rc + (n + 1) := by omega
        rwa [heq])
    rw [hrec]
    simp only
    rw [delays_cons]

theorem requestRun_all_5xx {α : Type} (server : Nat → AttemptResult α) (m : Nat)
    (e : TRError) (hall : ∀ i, attemptOutcome server i = .error e)
    (hre : shouldRetry e = true) :
    ∀ (n rc : Nat), m - rc = n →
      requestRun server m rc =
        ⟨.error e, m - rc + 1, (List.range (m - rc)).map fun j => 2 ^ (rc + j) * 1000⟩ := by
  intro n
  induction n with
  | zero =>
    intro rc h0
    have hc : ¬(rc < m ∧ shouldRetry e = true) := by
      intro hc
      omega
    rw [requestRun_noRetry server m rc e (hall rc) hc, h0]
    simp [h0]
  | succ n ih =>
    intro rc h
    have hrc : rc < m := by omega
    rw [requestRun_retry server m rc e (hall rc) ⟨hrc, hre⟩, ih (rc + 1) (by omega)]
    have h1 : m - (rc + 1) = n := by omega
    have h2 : m - rc = n + 1 := h
    rw [h1, h2]
    simp only
    rw [delays_cons]

theorem handleResponseError_5xx (r : HttpResponse) (hr : 500 ≤ r.status) :
    handleResponseError r =
      .apiStatusError (extractMessage r) (some r.status) r.data
        (convertHeaders r.headers) := by
  have h1 : r.status ≠ 401 := by omega
  have h2 : r.status ≠ 429 := by omega
  have h3 : r.status ≠ 400 := by omega
  have h4 : r.status ≠ 403 := by omega
  simp [handleResponseError, h1, h2, h3, h4, hr]

theorem shouldRetry_5xx (msg : String) (s : Nat) (b : Option Body)
    (hd : Option (List (String × String))) (hs : 500 ≤ s) :
    shouldRetry (.apiStatusError msg (some s) b hd) = true := by
  simp only [shouldRetry, Bool.and_eq_true, bne_iff_ne, ne_eq, decide_eq_true_eq]
  omega

/-- Claim C3: bounded 5xx-only retry — `request` retries exactly on an
`APIStatusError` with status ≥ 500 while `attempt < maxRetries`, waiting
`2^attempt` seconds each time. Against a server answering 5xx on the first
`k < maxRetries` attempts and 2xx on attempt `k+1` it returns the success
after exactly `k+1` network calls (with delays `2^0 … 2^(k-1)` seconds);
against an always-5xx server it makes exactly `maxRetries + 1` calls and
propagates the final error. -/
theorem request_retry_policy {α : Type} (v : α) (r : HttpResponse)
    (maxRetries k : Nat) (hk : k < maxRetries) (hr : 500 ≤ r.status) :
    (requestRun (fun i => if i < k then .httpError r else .success v) maxRetries 0
        = ⟨.ok v, k + 1, (List.range k).map fun j => 2 ^ j * 1000⟩)
    ∧ (requestRun (fun _ => AttemptResult.httpError (α := α) r) maxRetries 0
        = ⟨.error (handleResponseError r), maxRetries + 1,
            (List.range maxRetries).map fun j => 2 ^ j * 1000⟩) := by
  have herr := handleResponseError_5xx r hr
  have hsr : shouldRetry (handleResponseError r) = true := by
    rw [herr]
    exact shouldRetry_5xx _ _ _ _ hr
  constructor
  · have h := requestRun_ok_after
      (fun i => if i < k then .httpError r else .success v)
      maxRetries v k 0 (by omega)
      (fun i hi => ⟨handleResponseError r, by simp [attemptOutcome, hi], hsr⟩)
      (by simp [attemptOutcome])
    simpa using h
  · have h := requestRun_all_5xx (fun _ => AttemptResult.httpError (α := α) r)
      maxRetries (handleResponseError r) (fun i => rfl) hsr maxRetries 0 rfl
    simpa using h

theorem request_retry_policy_witness :
    (2 < 3 ∧ 500 ≤ 500)
    ∧ (requestRun (fun i => if i < 2 then .httpError ⟨500, none, "Internal Server Error", []⟩
          else .success (7 : Nat)) 3 0
        = ⟨.ok 7, 2 + 1, (List.range 2).map fun j => 2 ^ j * 1000⟩)
    ∧ (requestRun (fun _ => AttemptResult.httpError (α := Nat)
          ⟨500, none, "Internal Server Error", []⟩) 3 0
        = ⟨.error (handleResponseError ⟨500, none, "Internal Server Error", []⟩), 3 + 1,
            (List.range 3).map fun j => 2 ^ j * 1000⟩) :=
  ⟨⟨by decide, by decide⟩,
    (request_retry_policy (7 : Nat) ⟨500, none, "Internal Server Error", []⟩ 3 2
      (by decide) (by decide)).1,
    (request_retry_policy (7 : Nat) ⟨500, none, "Internal Server Error", []⟩ 3 2
      (by decide) (by decide)).2⟩

/-- Claim C4: status-to-error mapping — 401 ↦ AuthenticationError,
403 without "quota" in the message ↦ AuthenticationError,
400 ↦ InvalidRequestError, 403 with "quota" ↦ QuotaExceededError,
429 ↦ RateLimitError carrying `retryAfter` parsed from the `Retry-After`
header when present, 500 and 502 ↦ APIStatusError — each populated with the
response's status code and raw body, and with the message taken from the
body's `detail` field, else its `error` field, else the HTTP status phrase. -/
theorem status_error_mapping (r : HttpResponse) :
    (r.status = 401 → handleResponseError r =
      .authenticationError (extractMessage r) (some r.status) r.data (convertHeaders r.headers))
    ∧ (r.status = 403 → msgHasQuota (extractMessage r) = false → handleResponseError r =
      .authenticationError (extractMessage r) (some r.status) r.data (convertHeaders r.headers))
    ∧ (r.status = 400 → handleResponseError r =
      .invalidRequestError (extractMessage r) (some r.status) r.data (convertHeaders r.headers))
    ∧ (r.status = 403 → msgHasQuota (extractMessage r) = true → handleResponseError r =
      .quotaExceededError (extractMessage r) (some r.status) r.data (convertHeaders r.headers))
    ∧ (r.status = 429 → handleResponseError r =
      .rateLimitError (extractMessage r) (some r.status) r.data (convertHeaders r.headers)
        (parseRetryAfter (List.lookup "retry-after" r.headers)))
    ∧ (r.status = 500 → handleResponseError r =
      .apiStatusError (extractMessage r) (some r.status) r.data (convertHeaders r.headers))
    ∧ (r.status = 502 → handleResponseError r =
      .apiStatusError (extractMessage r) (some r.status) r.data (convertHeaders r.headers)) := by
  refine ⟨fun h => ?_, fun h hq => ?_, fun h => ?_, fun h hq => ?_, fun h => ?_,
    fun h => ?_, fun h => ?_⟩
  · simp [handleResponseError, h]
  · simp [handleResponseError, h, hq]
  · simp [handleResponseError, h]
  · simp [handleResponseError, h, hq]
  · simp [handleResponseError, h]
  · simp [handleResponseError, h]
  · simp [handleResponseError, h]

theorem status_error_mapping_witness :
    handleResponseError ⟨401, some ⟨some "bad key", none, ""⟩, "Unauthorized", []⟩
        = .authenticationError "bad key" (some 401) (some ⟨some "bad key", none, ""⟩) (some [])
    ∧ handleResponseError ⟨403, none, "Forbidden", []⟩
        = .authenticationError "Forbidden" (some 403) none (some [])
    ∧ handleResponseError ⟨400, some ⟨none, some "bad request", ""⟩, "Bad Request", []⟩
        = .invalidRequestError "bad request" (some 400) (some ⟨none, some "bad request", ""⟩) (some [])
    ∧ handleResponseError ⟨403, some ⟨some "Monthly Quota exceeded", none, ""⟩, "Forbidden", []⟩
        = .quotaExceededError "Monthly Quota exceeded" (some 403)
            (some ⟨some "Monthly Quota exceeded", none, ""⟩) (some [])
    ∧ handleResponseError ⟨429, none, "Too Many Requests", [("retry-after", "30")]⟩
        = .rateLimitError "Too Many Requests" (some 429) none
            (some [("retry-after", "30")]) (some (some 30))
    ∧ handleResponseError ⟨500, none, "Internal Server Error", []⟩
        = .apiStatusError "Internal Server Error" (some 500) none (some [])
    ∧ handleResponseError ⟨502, none, "Bad Gateway", []⟩
        = .apiStatusError "Bad Gateway" (some 502) none (some []) :=
  ⟨(status_error_mapping ⟨401, some ⟨some "bad key", none, ""⟩, "Unauthorized", []⟩).1 rfl,
    (status_error_mapping ⟨403, none, "Forbidden", []⟩).2.1 rfl (by decide),
    (status_error_mapping ⟨400, some ⟨none, some "bad request", ""⟩, "Bad Request", []⟩).2.2.1 rfl,
    (status_error_mapping
      ⟨403, some ⟨some "Monthly Quota exceeded", none, ""⟩, "Forbidden", []⟩).2.2.2.1 rfl
      (by decide),
    (status_error_mapping ⟨429, none, "Too Many Requests", [("retry-after", "30")]⟩).2.2.2.2.1 rfl,
    (status_error_mapping ⟨500, none, "Internal Server Error", []⟩).2.2.2.2.2.1 rfl,
    (status_error_mapping ⟨502, none, "Bad Gateway", []⟩).2.2.2.2.2.2 rfl⟩

/-- Counterexample to claim C5 as stated: for status 404 (non-2xx, below
500, not one of 400/401/403/429) the executor does NOT throw an
`APIStatusError`; it throws the base `TokenRouterError`. -/
theorem unclassified_4xx_not_apiStatusError :
    isAPIStatusError (handleResponseError ⟨404, none, "Not Found", []⟩) = false
    ∧ handleResponseError ⟨404, none, "Not Found", []⟩
        = .tokenRouterError "Not Found" (some 404) none (some []) :=
  ⟨by decide, by decide⟩

/-- Claim C5, amended: for every response whose status is non-2xx, below
500, and not one of 400, 401, 403, 429 (for example 404 or 418), the
executor throws the base `TokenRouterError` (not `APIStatusError`, which
the `default` branch reserves for status ≥ 500). -/
theorem unclassified_4xx_maps_to_base (r : HttpResponse)
    (h2xx : ¬(200 ≤ r.status ∧ r.status < 300)) (hlt : r.status < 500)
    (h400 : r.status ≠ 400) (h401 : r.status ≠ 401) (h403 : r.status ≠ 403)
    (h429 : r.status ≠ 429) :
    handleResponseError r =
      .tokenRouterError (extractMessage r) (some r.status) r.data
        (convertHeaders r.headers) := by
  simp [handleResponseError, h400, h401, h403, h429, not_le.mpr hlt]

theorem unclassified_4xx_maps_to_base_witness :
    handleResponseError ⟨404, none, "Not Found", []⟩
      = .tokenRouterError (extractMessage ⟨404, none, "Not Found", []⟩) (some 404) none
          (some []) :=
  unclassified_4xx_maps_to_base ⟨404, none, "Not Found", []⟩ (by decide) (by decide)
    (by decide) (by decide) (by decide) (by decide)

/-- Claim C6: no retry for any other failure — an error that fails the
5xx-`APIStatusError` retry guard propagates after exactly one network call
with no backoff; every non-`APIStatusError` taxonomy member fails the
guard; and a connection-level failure (no HTTP response) always maps to
`APIConnectionError` and is likewise returned after one call. -/
theorem non_5xx_not_retried {α : Type} (server : Nat → AttemptResult α)
    (maxRetries : Nat) (e : TRError)
    (h0 : attemptOutcome server 0 = .error e) (hnr : shouldRetry e = false) :
    requestRun server maxRetries 0 = ⟨.error e, 1, []⟩
    ∧ (∀ m s b hd, shouldRetry (.authenticationError m s b hd) = false)
    ∧ (∀ m s b hd ra, shouldRetry (.rateLimitError m s b hd ra) = false)
    ∧ (∀ m s b hd, shouldRetry (.invalidRequestError m s b hd) = false)
    ∧ (∀ m s b hd, shouldRetry (.quotaExceededError m s b hd) = false)
    ∧ (∀ m s b hd, shouldRetry (.apiConnectionError m s b hd) = false)
    ∧ (∀ (srv : Nat → AttemptResult α) msg, srv 0 = .connectionFailure msg →
        requestRun srv maxRetries 0 =
          ⟨.error (.apiConnectionError ("Connection failed: " ++ msg) none none none),
            1, []⟩) := by
  refine ⟨?_, fun m s b hd => rfl, fun m s b hd ra => rfl, fun m s b hd => rfl,
    fun m s b hd => rfl, fun m s b hd => rfl, ?_⟩
  · exact requestRun_noRetry server maxRetries 0 e h0 (by simp [hnr])
  · intro srv msg hsrv
    have hout : attemptOutcome srv 0 =
        .error (.apiConnectionError ("Connection failed: " ++ msg) none none none) := by
      simp [attemptOutcome, hsrv]
    exact requestRun_noRetry srv maxRetries 0 _ hout (by simp [shouldRetry])

theorem non_5xx_not_retried_witness :
    requestRun (fun _ => AttemptResult.httpError (α := Nat)
        ⟨401, none, "Unauthorized", []⟩) 3 0
      = ⟨.error (.authenticationError "Unauthorized" (some 401) none (some [])), 1, []⟩ :=
  (non_5xx_not_retried
    (fun _ => AttemptResult.httpError (α := Nat) ⟨401, none, "Unauthorized", []⟩) 3
    (.authenticationError "Unauthorized" (some 401) none (some []))
    rfl (by decide)).1

/-! ## Lemmas about the response normalizer -/

theorem joinAll_append (a b : List String) :
    joinAll (a ++ b) = joinAll a ++ joinAll b := by
  induction a with
  | nil => rfl
  | cons s rest ih => simp [joinAll, ih, String.append_assoc]

theorem str_empty_append (s : String) : "" ++ s = s := rfl

theorem join_contentTexts (cs : List OutputContent) :
    joinAll (contentTexts cs) =
      joinAll (cs.flatMap fun c =>
        if c.type = "output_text" then [c.text.getD ""] else []) := by
  induction cs with
  | nil => rfl
  | cons c rest ih =>
    rcases c with ⟨ty, tx⟩
    by_cases hty : ty = "output_text"
    · cases tx with
      | none => simp [contentTexts, hty, ih, joinAll, str_empty_append]
      | some t =>
        by_cases ht : t = ""
        · simp [contentTexts, hty, ht, ih, joinAll, str_empty_append]
        · simp [contentTexts, hty, ht, ih, joinAll]
    · simp [contentTexts, hty, ih]

theorem join_itemTexts (items : List OutputItem) :
    joinAll (itemTexts items) =
      joinAll (items.flatMap fun i =>
        if i.type = "message" then
          (i.content.getD []).flatMap fun c =>
            if c.type = "output_text" then [c.text.getD ""] else []
        else []) := by
  induction items with
  | nil => rfl
  | cons i rest ih =>
    rcases i with ⟨ty, ct⟩
    by_cases hty : ty = "message"
    · cases ct with
      | none => simp [itemTexts, hty, ih, joinAll, contentTexts]
      | some cs => simp [itemTexts, hty, joinAll_append, ih, join_contentTexts]
    · simp [itemTexts, hty, ih, joinAll]

/-- Claim C8: `deriveOutputText` (`extractOutputText` in the source) is a
pure function of the `output` sequence: it concatenates, in
output-then-content traversal order with no separators, the text of every
`output_text` block inside every `message` item, everything else
contributing nothing — stated as equality with the §4.4 contract written
in the spec's words — and on the spec's two-message example it returns
`"Hello, world"` while an output with no qualifying block returns `""`. -/
theorem deriveOutputText_correct :
    (∀ r : ResponseOut, extractOutputText r = deriveOutputTextSpec r)
    ∧ extractOutputText ⟨some [⟨"message", some [⟨"output_text", some "Hello, "⟩]⟩,
        ⟨"message", some [⟨"output_text", some "world"⟩]⟩]⟩ = "Hello, world"
    ∧ extractOutputText ⟨some []⟩ = ""
    ∧ extractOutputText ⟨none⟩ = "" :=
  ⟨fun r => join_itemTexts (r.output.getD []), rfl, rfl, rfl⟩

/-! ## Lemmas about reader-release traces -/

theorem releaseCount_append {E : Type} (a b : List (Effect E)) :
    releaseCount (a ++ b) = releaseCount a + releaseCount b :=
  List.countP_append _ _ _

theorem releaseCount_map_yield {E : Type} (es : List E) :
    releaseCount (es.map Effect.yieldEv) = 0 := by
  induction es with
  | nil => rfl
  | cons e rest ih => simpa [releaseCount, List.countP_cons, isRelease] using ih

theorem releaseCount_read_yields {E : Type} (es : List E) (t : List (Effect E)) :
    releaseCount (Effect.read :: (es.map Effect.yieldEv ++ t)) = releaseCount t := by
  have h1 := releaseCount_map_yield (E := E) es
  simp only [releaseCount, List.countP_cons, List.countP_append] at h1 ⊢
  simp [h1, isRelease]

theorem releaseCount_sseLoop {E : Type} (parse : List Char → Option E)
    (failAt : Option Nat) :
    ∀ (chunks : List (List Char)) (i : Nat) (buffer : List Char),
      releaseCount (sseLoopTrace parse failAt chunks i buffer) = 0 := by
  intro chunks
  induction chunks with
  | nil => intro i buffer; rfl
  | cons c rest ih =>
    intro i buffer
    by_cases hf : failAt = some i
    · simp only [sseLoopTrace, hf, if_true, ite_true]
      rfl
    · simp only [sseLoopTrace, hf, if_false, ite_false]
      rw [releaseCount_read_yields]
      rcases hq : runLines (processLine parse) (splitLines (buffer ++ c)).1 with ⟨es, d⟩
      cases d
      · simpa using ih (i + 1) (splitLines (buffer ++ c)).2
      · rfl

theorem cutAtYield_releaseCount_le {E : Type} :
    ∀ (l : List (Effect E)) (k : Nat) (p : List (Effect E)),
      cutAtYield k l = some p → releaseCount p ≤ releaseCount l := by
  intro l
  induction l with
  | nil => intro k p h; simp [cutAtYield] at h
  | cons e rest ih =>
    intro k p h
    cases e with
    | yieldEv x =>
      by_cases hk : k ≤ 1
      · simp [cutAtYield, hk] at h
        subst h
        simp [releaseCount, List.countP_cons, isRelease]
      · simp [cutAtYield, hk] at h
        obtain ⟨t, ht, hp⟩ := h
        subst hp
        have := ih (k - 1) t ht
        simp [releaseCount, List.countP_cons, isRelease] at this ⊢
        omega
    | read =>
      simp [cutAtYield] at h
      obtain ⟨t, ht, hp⟩ := h
      subst hp
      have := ih k t ht
      simp [releaseCount, List.countP_cons, isRelease] at this ⊢
      omega
    | release =>
      simp [cutAtYield] at h
      obtain ⟨t, ht, hp⟩ := h
      subst hp
      have := ih k t ht
      simp [releaseCount, List.countP_cons, isRelease] at this ⊢
      omega

theorem cutAtYield_append_left {E : Type} :
    ∀ (a : List (Effect E)) (k : Nat) (p b : List (Effect E)),
      cutAtYield k a = some p → cutAtYield k (a ++ b) = some p := by
  intro a
  induction a with
  | nil => intro k p b h; simp [cutAtYield] at h
  | cons e rest ih =>
    intro k p b h
    cases e with
    | yieldEv x =>
      by_cases hk : k ≤ 1
      · simp [cutAtYield, hk] at h ⊢
        exact h
      · simp [cutAtYield, hk] at h ⊢
        obtain ⟨t, ht, hp⟩ := h
        exact ⟨t, ih (k - 1) t b ht, hp⟩
    | read =>
      simp [cutAtYield] at h ⊢
      obtain ⟨t, ht, hp⟩ := h
      exact ⟨t, ih k t b ht, hp⟩
    | release =>
      simp [cutAtYield] at h ⊢
      obtain ⟨t, ht, hp⟩ := h
      exact ⟨t, ih k t b ht, hp⟩

theorem cutAtYield_append_release_none {E : Type} :
    ∀ (a : List (Effect E)) (k : Nat), cutAtYield k a = none →
      cutAtYield k (a ++ [Effect.release]) = none := by
  intro a
  induction a with
  | nil => intro k _; simp [cutAtYield]
  | cons e rest ih =>
    intro k h
    cases e with
    | yieldEv x =>
      by_cases hk : k ≤ 1
      · simp [cutAtYield, hk] at h
      · simp [cutAtYield, hk, Option.map_eq_none] at h ⊢
        exact ih (k - 1) h
    | read =>
      simp [cutAtYield, Option.map_eq_none] at h ⊢
      exact ih k h
    | release =>
      simp [cutAtYield, Option.map_eq_none] at h ⊢
      exact ih k h

/-- The resource discipline the spec demands, verified for the decoder of
src/client.ts: on every exit path — normal completion, the `[DONE]`
sentinel, a throwing read (`failAt`), or the consumer stopping after any
number of events (`budget`) — `parseSSEStream` releases the reader exactly
once. -/
theorem parseSSE_release_once {E : Type} (parse : List Char → Option E)
    (chunks : List (List Char)) (failAt : Option Nat) (budget : Option Nat) :
    releaseCount (parseSSETrace parse chunks failAt budget) = 1 := by
  have hloop := releaseCount_sseLoop parse failAt chunks 0 []
  have hfull : releaseCount (parseSSETraceFull parse chunks failAt) = 1 := by
    unfold parseSSETraceFull
    rw [releaseCount_append, hloop]
    rfl
  cases budget with
  | none => simpa [parseSSETrace] using hfull
  | some k =>
    rcases h : cutAtYield k (parseSSETraceFull parse chunks failAt) with _ | pcut
    · simpa [parseSSETrace, h] using hfull
    · simp only [parseSSETrace, h]
      rw [releaseCount_append]
      have hp0 : releaseCount pcut = 0 := by
        rcases h2 : cutAtYield k (sseLoopTrace parse failAt chunks 0 []) with _ | qcut
        · have hn := cutAtYield_append_release_none _ k h2
          rw [show sseLoopTrace parse failAt chunks 0 [] ++ [Effect.release]
              = parseSSETraceFull parse chunks failAt from rfl] at hn
          rw [hn] at h
          cases h
        · have hsome := cutAtYield_append_left _ k qcut [Effect.release] h2
          rw [show sseLoopTrace parse failAt chunks 0 [] ++ [Effect.release]
              = parseSSETraceFull parse chunks failAt from rfl] at hsome
          rw [hsome] at h
          cases h
          have hle := cutAtYield_releaseCount_le _ k pcut h2
          omega
      rw [hp0]
      rfl

/-- Claim C9, evaluated against `streamChatCompletion`
(src/unnamed/part_004): at the spec's own test input — a five-event stream
with the consumer breaking after the first event — the generator performs
one read and one yield and never invokes `reader.releaseLock()` (the claim
demands exactly one release); it performs zero releases on full consumption
as well, since its read loop has no `try`/`finally` and no release call on
any path. -/
theorem streamChatCompletion_never_releases :
    chatTrace (fun l => some l)
        (["data: e1\n", "data: e2\n", "data: e3\n", "data: e4\n", "data: e5\n"].map
          String.toList) none (some 1)
      = [Effect.read, Effect.yieldEv "e1".toList]
    ∧ releaseCount (chatTrace (fun l => some l)
        (["data: e1\n", "data: e2\n", "data: e3\n", "data: e4\n", "data: e5\n"].map
          String.toList) none (some 1)) = 0
    ∧ releaseCount (chatTrace (fun l => some l)
        (["data: e1\n", "data: e2\n", "data: e3\n", "data: e4\n", "data: e5\n"].map
          String.toList) none none) = 0 :=
  ⟨by decide, by decide, by decide⟩
